import Mathlib

/-!
Verification development for the fastllm repository: shallow embeddings of
the four application scripts (`embeddings-modal/dataset.py`,
`finetune-quora-embeddings/benchmark.py`,
`affine-finetune-embeddings/model.py`, `sentence-transformers-ft/finetune.py`)
and proofs about them.

Machine floating-point values are modelled as rationals (every float is a
rational); tensor-level real arithmetic (cosine similarity, logarithms) is
modelled over the real numbers. HTTP traffic is modelled by an oracle
`respond : List String → HttpResponse` giving, for each posted batch of
texts, the status code and embedding payload of the response; functions that
issue requests additionally return the trace of requests they issued, so
that claims about which requests are sent (and how often) are statable.
-/

/-- An embedding vector: the numeric payload of one item of the `data` field
of an embedding-endpoint response. -/
abbrev Embedding := List ℚ

/-- An HTTP response from the embedding endpoint: a status code and the
decoded list of embeddings (`[item["embedding"] for item in response.json()["data"]]`). -/
structure HttpResponse where
  status : ℕ
  data : List Embedding

/-- `requests.Response.raise_for_status` raises `HTTPError` exactly for
status codes in `[400, 600)` (client and server errors). -/
def isErrStatus (s : ℕ) : Bool := 400 ≤ s && s < 600

/-- `get_embeddings_batch` from `embeddings-modal/dataset.py`: POST the
texts to the Modal endpoint once, abort (`raise_for_status`) on an HTTP
error status, otherwise return the embeddings of the response. The first
component records the requests issued (exactly one, also on failure). -/
def get_embeddings_batch (respond : List String → HttpResponse)
    (texts : List String) : List (List String) × Except String (List Embedding) :=
  let response := respond texts
  ([texts],
    if isErrStatus response.status then Except.error "HTTPError"
    else Except.ok response.data)

/-- `get_embeddings_linear` from `embeddings-modal/dataset.py`: identical
body to `get_embeddings_batch` (the Python source duplicates it, adding only
a timing decorator). -/
def get_embeddings_linear (respond : List String → HttpResponse)
    (texts : List String) : List (List String) × Except String (List Embedding) :=
  let response := respond texts
  ([texts],
    if isErrStatus response.status then Except.error "HTTPError"
    else Except.ok response.data)

/-- Loop of `process_dataset_batch`: accumulate texts into `batchTexts`;
whenever it reaches `batchSize` elements, request embeddings for it (an
HTTP error aborts the whole run) and extend `embeddings`; the Python
function has no `return` statement, so on normal exit it returns `None`
(`Option.none`), discarding `embeddings`. -/
def process_dataset_batch_go (respond : List String → HttpResponse)
    (batchSize : ℕ) :
    List String → List String → List Embedding →
    List (List String) × Except String (Option (List Embedding))
  | [], _, _ => ([], Except.ok none)
  | t :: rest, batchTexts, embeddings =>
    let batchTexts2 := batchTexts ++ [t]
    if batchTexts2.length = batchSize then
      match get_embeddings_batch respond batchTexts2 with
      | (reqs, Except.error e) => (reqs, Except.error e)
      | (reqs, Except.ok batchEmbeddings) =>
        let r := process_dataset_batch_go respond batchSize rest []
          (embeddings ++ batchEmbeddings)
        (reqs ++ r.1, r.2)
    else
      process_dataset_batch_go respond batchSize rest batchTexts2 embeddings

/-- `process_dataset_batch(dataset, batch_size)` from
`embeddings-modal/dataset.py`, with the dataset abstracted to its list of
`item['text']` values. -/
def process_dataset_batch (respond : List String → HttpResponse)
    (dataset : List String) (batchSize : ℕ) :
    List (List String) × Except String (Option (List Embedding)) :=
  process_dataset_batch_go respond batchSize dataset [] []

/-- Loop of `process_dataset_linear`: `for i, item in enumerate(dataset)`,
breaking as soon as `i >= 100`; each iteration requests the embedding of the
single text `[item['text']]` and appends the (list-valued) result. -/
def process_dataset_linear_go (respond : List String → HttpResponse) :
    List String → ℕ → List (List Embedding) →
    List (List String) × Except String (List (List Embedding))
  | [], _, embeddings => ([], Except.ok embeddings)
  | t :: rest, i, embeddings =>
    if 100 ≤ i then ([], Except.ok embeddings)
    else
      match get_embeddings_linear respond [t] with
      | (reqs, Except.error e) => (reqs, Except.error e)
      | (reqs, Except.ok embedding) =>
        let r := process_dataset_linear_go respond rest (i + 1)
          (embeddings ++ [embedding])
        (reqs ++ r.1, r.2)

/-- `process_dataset_linear(dataset)` from `embeddings-modal/dataset.py`. -/
def process_dataset_linear (respond : List String → HttpResponse)
    (dataset : List String) :
    List (List String) × Except String (List (List Embedding)) :=
  process_dataset_linear_go respond dataset 0 []

/-- Dimension check loop of `benchmark_openai.embed_text`
(`finetune-quora-embeddings/benchmark.py`): for each returned item, assert
that its embedding has the expected length, appending it to the result. -/
def check_dims (d : ℕ) : List Embedding → Except String (List Embedding)
  | [] => Except.ok []
  | e :: rest =>
    if e.length ≠ d then Except.error "AssertionError"
    else
      match check_dims d rest with
      | Except.error msg => Except.error msg
      | Except.ok res => Except.ok (e :: res)

/-- `embed_text` inside `benchmark_openai`: the response (modelled by its
list of embeddings `resp`) must carry as many embeddings as texts sent, and
every embedding must have length 1536, else an `AssertionError` aborts the
run; on success the embeddings are returned in order. -/
def embed_text_openai (resp : List Embedding) (texts : List String) :
    Except String (List Embedding) :=
  if resp.length ≠ texts.length then Except.error "AssertionError"
  else check_dims 1536 resp

/-- `embed_text` inside `benchmark_cohere_roc`: same shape assertions with
dimension 1024, returning `response.embeddings` itself on success. -/
def embed_text_cohere (resp : List Embedding) (texts : List String) :
    Except String (List Embedding) :=
  if resp.length ≠ texts.length then Except.error "AssertionError"
  else
    match check_dims 1024 resp with
    | Except.error msg => Except.error msg
    | Except.ok _ => Except.ok resp

lemma check_dims_eq (d : ℕ) : ∀ l : List Embedding,
    check_dims d l =
      if l.all (fun e => e.length == d) then Except.ok l
      else Except.error "AssertionError" := by
  intro l
  induction l with
  | nil => simp [check_dims]
  | cons e rest ih =>
    by_cases he : e.length = d
    · simp only [check_dims, he, ite_not, if_pos rfl, ih]
      by_cases hall : rest.all (fun e => e.length == d)
      · simp [hall, he]
      · simp [hall, he]
    · simp [check_dims, he]

lemma process_dataset_batch_go_error_iff
    (respond : List String → HttpResponse) (b : ℕ) :
    ∀ (l acc : List String) (embs : List Embedding),
      ((process_dataset_batch_go respond b l acc embs).2 = Except.error "HTTPError" ↔
        ∃ req ∈ (process_dataset_batch_go respond b l acc embs).1,
          isErrStatus (respond req).status = true) := by
  intro l
  induction l with
  | nil => intro acc embs; simp [process_dataset_batch_go]
  | cons t rest ih =>
    intro acc embs
    by_cases hb : (acc ++ [t]).length = b
    · by_cases hE : isErrStatus (respond (acc ++ [t])).status
      · simp [process_dataset_batch_go, hb, get_embeddings_batch, hE]
      · simp only [process_dataset_batch_go, hb, if_pos rfl, get_embeddings_batch,
          hE, if_neg Bool.false_ne_true]
        simp only [Bool.not_eq_true] at hE
        simp [ih, hE]
    · simp only [process_dataset_batch_go, hb, if_neg hb]
      exact ih (acc ++ [t]) embs

lemma process_dataset_linear_go_error_iff
    (respond : List String → HttpResponse) :
    ∀ (l : List String) (i : ℕ) (embs : List (List Embedding)),
      ((process_dataset_linear_go respond l i embs).2 = Except.error "HTTPError" ↔
        ∃ req ∈ (process_dataset_linear_go respond l i embs).1,
          isErrStatus (respond req).status = true) := by
  intro l
  induction l with
  | nil => intro i embs; simp [process_dataset_linear_go]
  | cons t rest ih =>
    intro i embs
    by_cases hi : 100 ≤ i
    · simp [process_dataset_linear_go, hi]
    · by_cases hE : isErrStatus (respond [t]).status
      · simp [process_dataset_linear_go, hi, get_embeddings_linear, hE]
      · simp only [process_dataset_linear_go, hi, if_neg hi, get_embeddings_linear,
          hE, if_neg Bool.false_ne_true]
        simp only [Bool.not_eq_true] at hE
        simp [ih, hE]

lemma process_dataset_batch_go_cons_flush
    (respond : List String → HttpResponse) (b : ℕ) (t : String)
    (rest acc : List String) (embs : List Embedding)
    (hb : (acc ++ [t]).length = b)
    (hok : isErrStatus (respond (acc ++ [t])).status = false) :
    process_dataset_batch_go respond b (t :: rest) acc embs =
      ((acc ++ [t]) ::
          (process_dataset_batch_go respond b rest []
            (embs ++ (respond (acc ++ [t])).data)).1,
        (process_dataset_batch_go respond b rest []
          (embs ++ (respond (acc ++ [t])).data)).2) := by
  conv_lhs => rw [process_dataset_batch_go]
  rw [if_pos hb, get_embeddings_batch, hok]
  simp

lemma process_dataset_batch_go_cons_acc
    (respond : List String → HttpResponse) (b : ℕ) (t : String)
    (rest acc : List String) (embs : List Embedding)
    (hb : ¬(acc ++ [t]).length = b) :
    process_dataset_batch_go respond b (t :: rest) acc embs =
      process_dataset_batch_go respond b rest (acc ++ [t]) embs := by
  conv_lhs => rw [process_dataset_batch_go]
  rw [if_neg hb]

lemma process_dataset_batch_go_ok
    (respond : List String → HttpResponse)
    (hAll : ∀ ts, isErrStatus (respond ts).status = false) (b : ℕ) :
    ∀ (l acc : List String) (embs : List Embedding), acc.length < b →
      (process_dataset_batch_go respond b l acc embs).2 = Except.ok none ∧
      ((process_dataset_batch_go respond b l acc embs).1).flatten =
        (acc ++ l).take (b * ((acc.length + l.length) / b)) := by
  intro l
  induction l with
  | nil =>
    intro acc embs hacc
    simp [process_dataset_batch_go, Nat.div_eq_of_lt hacc]
  | cons t rest ih =>
    intro acc embs hacc
    by_cases hb : (acc ++ [t]).length = b
    · have hbpos : 0 < b := by simp at hb; omega
      rw [process_dataset_batch_go_cons_flush respond b t rest acc embs hb
        (hAll (acc ++ [t]))]
      obtain ⟨ih2, ih1⟩ := ih [] (embs ++ (respond (acc ++ [t])).data) hbpos
      refine ⟨ih2, ?_⟩
      simp only [List.flatten_cons, ih1, List.nil_append, List.length_nil,
        Nat.zero_add]
      have hlen : acc.length + (t :: rest).length = rest.length + b := by
        simp at hb ⊢; omega
      have hdiv : (rest.length + b) / b = rest.length / b + 1 :=
        Nat.add_div_right rest.length hbpos
      have hsplit : acc ++ t :: rest = (acc ++ [t]) ++ rest := by simp
      rw [hlen, hdiv, Nat.mul_add, Nat.mul_one, Nat.add_comm (b * (rest.length / b)) b,
        hsplit, ← hb, List.take_append]
    · have hacc2 : (acc ++ [t]).length < b := by
        simp at hb ⊢; omega
      rw [process_dataset_batch_go_cons_acc respond b t rest acc embs hb]
      obtain ⟨ih2, ih1⟩ := ih (acc ++ [t]) embs hacc2
      refine ⟨ih2, ?_⟩
      rw [ih1]
      have h1 : (acc ++ [t]) ++ rest = acc ++ t :: rest := by simp
      have h2 : (acc ++ [t]).length + rest.length = acc.length + (t :: rest).length := by
        simp; omega
      rw [h1, h2]

lemma process_dataset_linear_go_ok
    (respond : List String → HttpResponse)
    (hAll : ∀ ts, isErrStatus (respond ts).status = false) :
    ∀ (l : List String) (i : ℕ) (embs : List (List Embedding)),
      process_dataset_linear_go respond l i embs =
        ((l.take (100 - i)).map (fun t => [t]),
          Except.ok (embs ++ (l.take (100 - i)).map (fun t => (respond [t]).data))) := by
  intro l
  induction l with
  | nil => intro i embs; simp [process_dataset_linear_go]
  | cons t rest ih =>
    intro i embs
    by_cases hi : 100 ≤ i
    · have : 100 - i = 0 := by omega
      simp [process_dataset_linear_go, hi, this]
    · obtain ⟨k, hk⟩ : ∃ k, 100 - i = k + 1 := ⟨100 - (i + 1), by omega⟩
      have hk2 : 100 - (i + 1) = k := by omega
      have hstep : process_dataset_linear_go respond (t :: rest) i embs =
          ([t] :: (process_dataset_linear_go respond rest (i + 1)
              (embs ++ [(respond [t]).data])).1,
            (process_dataset_linear_go respond rest (i + 1)
              (embs ++ [(respond [t]).data])).2) := by
        conv_lhs => rw [process_dataset_linear_go]
        rw [if_neg hi, get_embeddings_linear, hAll [t]]
        simp
      rw [hstep, ih (i + 1) (embs ++ [(respond [t]).data])]
      simp [hk, hk2]

lemma embed_text_openai_eq (resp : List Embedding) (texts : List String) :
    embed_text_openai resp texts =
      if resp.length = texts.length ∧ ∀ e ∈ resp, e.length = 1536 then
        Except.ok resp
      else Except.error "AssertionError" := by
  unfold embed_text_openai
  rw [check_dims_eq]
  by_cases hlen : resp.length = texts.length
  · rw [if_neg (by simpa using hlen)]
    by_cases hall : ∀ e ∈ resp, e.length = 1536
    · rw [if_pos (by simp only [List.all_eq_true, beq_iff_eq]; exact hall),
        if_pos ⟨hlen, hall⟩]
    · rw [if_neg (by simp only [List.all_eq_true, beq_iff_eq]; exact hall),
        if_neg (by rintro ⟨h1, h2⟩; exact hall h2)]
  · rw [if_pos hlen, if_neg (by rintro ⟨h1, h2⟩; exact hlen h1)]

lemma embed_text_cohere_eq (resp : List Embedding) (texts : List String) :
    embed_text_cohere resp texts =
      if resp.length = texts.length ∧ ∀ e ∈ resp, e.length = 1024 then
        Except.ok resp
      else Except.error "AssertionError" := by
  unfold embed_text_cohere
  rw [check_dims_eq]
  by_cases hlen : resp.length = texts.length
  · rw [if_neg (by simpa using hlen)]
    by_cases hall : ∀ e ∈ resp, e.length = 1024
    · rw [if_pos (by simp only [List.all_eq_true, beq_iff_eq]; exact hall),
        if_pos ⟨hlen, hall⟩]
    · rw [if_neg (by simp only [List.all_eq_true, beq_iff_eq]; exact hall),
        if_neg (by rintro ⟨h1, h2⟩; exact hall h2)]
  · rw [if_pos hlen, if_neg (by rintro ⟨h1, h2⟩; exact hlen h1)]

lemma assert_error_iff (resp : List Embedding) (texts : List String) (d : ℕ)
    (f : List Embedding → List String → Except String (List Embedding))
    (hf : f resp texts =
      if resp.length = texts.length ∧ ∀ e ∈ resp, e.length = d then
        Except.ok resp
      else Except.error "AssertionError") :
    (f resp texts = Except.error "AssertionError" ↔
      (resp.length ≠ texts.length ∨ ∃ e ∈ resp, e.length ≠ d)) ∧
    (f resp texts = Except.ok resp ↔
      (resp.length = texts.length ∧ ∀ e ∈ resp, e.length = d)) := by
  rw [hf]
  by_cases hc : resp.length = texts.length ∧ ∀ e ∈ resp, e.length = d
  · rw [if_pos hc]
    refine ⟨iff_of_false (by simp) ?_, iff_of_true rfl hc⟩
    rintro (h | ⟨e, he, hne⟩)
    · exact h hc.1
    · exact hne (hc.2 e he)
  · rw [if_neg hc]
    refine ⟨iff_of_true rfl ?_, iff_of_false (by simp) hc⟩
    by_cases hlen : resp.length = texts.length
    · have hB : ¬∀ e ∈ resp, e.length = d := fun b => hc ⟨hlen, b⟩
      push_neg at hB
      exact Or.inr hB
    · exact Or.inl hlen

/-- Claim C4: error handling is fail-fast across the scripts.
`get_embeddings_batch` and `get_embeddings_linear` issue exactly one request
per call (also on failure — no retry, no backoff) and raise `HTTPError`
exactly when the response carries an HTTP error status; the async benchmark
helpers `embed_text` (OpenAI and Cohere) raise `AssertionError` exactly when
the response carries a different number of embeddings than texts sent or an
embedding of the wrong fixed dimension (1536 for OpenAI, 1024 for Cohere),
and return the full (never partial) list of embeddings otherwise; the
dataset-processing loops abort with `HTTPError` exactly when one of the
requests they issued failed. -/
theorem claim_c4_fail_fast :
    ∀ (respond : List String → HttpResponse) (texts : List String)
      (resp : List Embedding) (dataset : List String) (b : ℕ),
      (get_embeddings_batch respond texts).1 = [texts] ∧
      (get_embeddings_linear respond texts).1 = [texts] ∧
      ((get_embeddings_batch respond texts).2 = Except.error "HTTPError" ↔
        isErrStatus (respond texts).status = true) ∧
      ((get_embeddings_linear respond texts).2 = Except.error "HTTPError" ↔
        isErrStatus (respond texts).status = true) ∧
      (embed_text_openai resp texts = Except.error "AssertionError" ↔
        (resp.length ≠ texts.length ∨ ∃ e ∈ resp, e.length ≠ 1536)) ∧
      (embed_text_openai resp texts = Except.ok resp ↔
        (resp.length = texts.length ∧ ∀ e ∈ resp, e.length = 1536)) ∧
      (embed_text_cohere resp texts = Except.error "AssertionError" ↔
        (resp.length ≠ texts.length ∨ ∃ e ∈ resp, e.length ≠ 1024)) ∧
      (embed_text_cohere resp texts = Except.ok resp ↔
        (resp.length = texts.length ∧ ∀ e ∈ resp, e.length = 1024)) ∧
      ((process_dataset_batch respond dataset b).2 = Except.error "HTTPError" ↔
        ∃ req ∈ (process_dataset_batch respond dataset b).1,
          isErrStatus (respond req).status = true) ∧
      ((process_dataset_linear respond dataset).2 = Except.error "HTTPError" ↔
        ∃ req ∈ (process_dataset_linear respond dataset).1,
          isErrStatus (respond req).status = true) := by
  intro respond texts resp dataset b
  obtain ⟨ho1, ho2⟩ := assert_error_iff resp texts 1536 embed_text_openai
    (embed_text_openai_eq resp texts)
  obtain ⟨hc1, hc2⟩ := assert_error_iff resp texts 1024 embed_text_cohere
    (embed_text_cohere_eq resp texts)
  refine ⟨rfl, rfl, ?_, ?_, ho1, ho2, hc1, hc2, ?_, ?_⟩
  · cases hE : isErrStatus (respond texts).status <;>
      simp [get_embeddings_batch, hE]
  · cases hE : isErrStatus (respond texts).status <;>
      simp [get_embeddings_linear, hE]
  · exact process_dataset_batch_go_error_iff respond b dataset [] []
  · exact process_dataset_linear_go_error_iff respond dataset 0 []

/-- Claim C9: for a dataset of length `L` and `batch_size = b > 0`, under a
responding endpoint (no HTTP errors), `process_dataset_batch` sends exactly
the first `b * (L / b)` texts (the trailing `L % b` texts are never sent)
and returns `None`, discarding the embeddings it accumulated. -/
theorem claim_c9_batch_prefix (respond : List String → HttpResponse)
    (dataset : List String) (b : ℕ) (hb : 0 < b)
    (hAll : ∀ ts, isErrStatus (respond ts).status = false) :
    ((process_dataset_batch respond dataset b).1).flatten =
      dataset.take (b * (dataset.length / b)) ∧
    (process_dataset_batch respond dataset b).2 = Except.ok none := by
  obtain ⟨h2, h1⟩ := process_dataset_batch_go_ok respond hAll b dataset [] [] (by simpa)
  exact ⟨by simpa using h1, h2⟩

/-- A benign endpoint oracle: every request succeeds with status 200 and a
fixed two-embedding payload. -/
def okRespond : List String → HttpResponse :=
  fun _ => { status := 200, data := [[1], [2]] }

theorem claim_c9_batch_prefix_witness :
    (0 < 2 ∧ ∀ ts, isErrStatus (okRespond ts).status = false) ∧
    (((process_dataset_batch okRespond ["a", "b", "c", "d", "e"] 2).1).flatten =
        (["a", "b", "c", "d", "e"] : List String).take
          (2 * ((["a", "b", "c", "d", "e"] : List String).length / 2)) ∧
      (process_dataset_batch okRespond ["a", "b", "c", "d", "e"] 2).2 =
        Except.ok none) :=
  ⟨⟨by decide, fun _ => rfl⟩,
    claim_c9_batch_prefix okRespond ["a", "b", "c", "d", "e"] 2 (by decide)
      (fun _ => rfl)⟩

/-- Claim C10: under a responding endpoint, `process_dataset_linear`
requests embeddings one text at a time, only for the first 100 items of the
dataset, and returns the list of the `min L 100` per-item results; items at
index 100 and beyond are never embedded. -/
theorem claim_c10_linear_first_100 (respond : List String → HttpResponse)
    (dataset : List String)
    (hAll : ∀ ts, isErrStatus (respond ts).status = false) :
    (process_dataset_linear respond dataset).1 =
      (dataset.take 100).map (fun t => [t]) ∧
    (process_dataset_linear respond dataset).2 =
      Except.ok ((dataset.take 100).map (fun t => (respond [t]).data)) ∧
    ∃ results, (process_dataset_linear respond dataset).2 = Except.ok results ∧
      results.length = min dataset.length 100 := by
  have h := process_dataset_linear_go_ok respond hAll dataset 0 []
  rw [process_dataset_linear, h]
  refine ⟨rfl, by simp, (dataset.take 100).map (fun t => (respond [t]).data),
    by simp, ?_⟩
  simp [Nat.min_comm]

theorem claim_c10_linear_first_100_witness :
    (∀ ts, isErrStatus (okRespond ts).status = false) ∧
    ((process_dataset_linear okRespond ["a", "b", "c"]).1 =
        ((["a", "b", "c"] : List String).take 100).map (fun t => [t]) ∧
      (process_dataset_linear okRespond ["a", "b", "c"]).2 =
        Except.ok (((["a", "b", "c"] : List String).take 100).map
          (fun t => (okRespond [t]).data)) ∧
      ∃ results, (process_dataset_linear okRespond ["a", "b", "c"]).2 =
          Except.ok results ∧
        results.length = min (["a", "b", "c"] : List String).length 100) :=
  ⟨fun _ => rfl, claim_c10_linear_first_100 okRespond ["a", "b", "c"] (fun _ => rfl)⟩

/-- Claim C5 (code evaluation at the failing input): running the `BATCH`
branch of `main()` — `embeddings = process_dataset_batch(dataset, 20)` — on
a 20-item dataset against a fully successful endpoint yields `None`:
`process_dataset_batch` has no `return` statement, so the raw embedding
vectors it accumulated never reach `save_to_excel`, contradicting the
spec's statement that the run persists them to `embeddings.xlsx`. -/
theorem claim_c5_batch_returns_none :
    (process_dataset_batch okRespond
      ["t01", "t02", "t03", "t04", "t05", "t06", "t07", "t08", "t09", "t10",
       "t11", "t12", "t13", "t14", "t15", "t16", "t17", "t18", "t19", "t20"]
      20).2 = Except.ok none := rfl

/-- A row of the cleaned Quora duplicate-question dataset: the two question
texts (`row["questions"]["text"]`) and the `is_duplicate` flag. -/
structure QuoraRow where
  s1 : String
  s2 : String
  is_duplicate : Bool

/-- Mutable state of the `get_unique_sentences` generator: the `seen` set
(kept in insertion order, which a Python `set` does not expose but which the
ids in `sentence_to_id_mapping` record), the mapping being filled in, the
current `batch`, and the batches yielded so far. -/
structure GUSState where
  seen : List String
  mapping : List (String × ℕ)
  batch : List String
  batches : List (List String)

/-- One sentence step of `get_unique_sentences`: if the sentence is new,
record `sentence_to_id_mapping[s] = len(seen)`, add it to `seen` and to the
current batch, and yield (flush) the batch when it reaches `batch_size`. -/
def add_sentence (batchSize : ℕ) (st : GUSState) (s : String) : GUSState :=
  if s ∈ st.seen then st
  else
    let st2 : GUSState :=
      { seen := st.seen ++ [s],
        mapping := st.mapping ++ [(s, st.seen.length)],
        batch := st.batch ++ [s],
        batches := st.batches }
    if st2.batch.length = batchSize then
      { st2 with batch := [], batches := st2.batches ++ [st2.batch] }
    else st2

/-- `get_unique_sentences(test_dataset, sentence_to_id_mapping, batch_size)`
from `finetune-quora-embeddings/benchmark.py`, run to exhaustion: processes
`s1` then `s2` of every row, and finally yields the leftover partial batch
if nonempty. Returns the yielded batches and the final mapping. -/
def gus_final_state (rows : List QuoraRow) (batchSize : ℕ) : GUSState :=
  rows.foldl
    (fun st r => add_sentence batchSize (add_sentence batchSize st r.s1) r.s2)
    { seen := [], mapping := [], batch := [], batches := [] }

def get_unique_sentences (rows : List QuoraRow) (batchSize : ℕ) :
    List (List String) × List (String × ℕ) :=
  ((gus_final_state rows batchSize).batches ++
      if (gus_final_state rows batchSize).batch.isEmpty then []
      else [(gus_final_state rows batchSize).batch],
    (gus_final_state rows batchSize).mapping)

/-- Python dict lookup `mapping[s]` (`None` models a `KeyError`). -/
def dict_get (m : List (String × ℕ)) (s : String) : Option ℕ :=
  (m.find? (fun p => p.1 == s)).map Prod.snd

/-- `extract_unique_sentences(test_dataset, sentence_to_id_mapping)`: per
row, the mapped ids of its two sentences and its 0/1 duplicate label. -/
def extract_unique_sentences (rows : List QuoraRow) (m : List (String × ℕ)) :
    List (Option ℕ) × List (Option ℕ) × List ℕ :=
  (rows.map (fun r => dict_get m r.s1),
    rows.map (fun r => dict_get m r.s2),
    rows.map (fun r => if r.is_duplicate then 1 else 0))

/-- Append a sentence to an accumulator if it is not already present. -/
def insert_if_new (acc : List String) (s : String) : List String :=
  if s ∈ acc then acc else acc ++ [s]

/-- The distinct elements of `l`, each kept once, in order of first
appearance. -/
def first_occurrences (l : List String) : List String :=
  l.foldl insert_if_new []

/-- Pair each element of a list with its position, starting at `i`. -/
def with_ids (i : ℕ) : List String → List (String × ℕ)
  | [] => []
  | s :: l => (s, i) :: with_ids (i + 1) l

/-- Index of the first occurrence of `s` (0 if absent). -/
def idx_of_str (s : String) : List String → ℕ
  | [] => 0
  | t :: l => if t = s then 0 else idx_of_str s l + 1

/-- The sentences of a dataset in processing order: `s1` then `s2` of each
row. -/
def row_sentences (rows : List QuoraRow) : List String :=
  rows.foldr (fun r acc => r.s1 :: r.s2 :: acc) []

lemma seen_add_sentence (bs : ℕ) (st : GUSState) (s : String) :
    (add_sentence bs st s).seen = insert_if_new st.seen s := by
  unfold add_sentence insert_if_new
  by_cases h : s ∈ st.seen
  · simp [h]
  · simp only [if_neg h]
    split <;> rfl

lemma seen_foldl (bs : ℕ) : ∀ (ws : List String) (st : GUSState),
    (ws.foldl (add_sentence bs) st).seen = ws.foldl insert_if_new st.seen := by
  intro ws
  induction ws with
  | nil => intro st; rfl
  | cons s ws ih =>
    intro st
    rw [List.foldl_cons, List.foldl_cons, ih, seen_add_sentence]

lemma rows_foldl_eq (bs : ℕ) : ∀ (rows : List QuoraRow) (st : GUSState),
    rows.foldl (fun st r => add_sentence bs (add_sentence bs st r.s1) r.s2) st =
      (row_sentences rows).foldl (add_sentence bs) st := by
  intro rows
  induction rows with
  | nil => intro st; rfl
  | cons r rows ih =>
    intro st
    have hexp : row_sentences (r :: rows) = r.s1 :: r.s2 :: row_sentences rows := rfl
    rw [List.foldl_cons, ih, hexp, List.foldl_cons, List.foldl_cons]

/-- Invariant of the `get_unique_sentences` state: `seen` has no duplicates,
the mapping pairs each seen sentence with its insertion index, and the
flushed batches followed by the current batch spell out `seen`. -/
def GUSInv (st : GUSState) : Prop :=
  st.seen.Nodup ∧ st.mapping = with_ids 0 st.seen ∧
    st.batches.flatten ++ st.batch = st.seen

lemma with_ids_append : ∀ (l : List String) (i : ℕ) (s : String),
    with_ids i (l ++ [s]) = with_ids i l ++ [(s, i + l.length)] := by
  intro l
  induction l with
  | nil => intro i s; simp [with_ids]
  | cons t l ih =>
    intro i s
    have harith : i + 1 + l.length = i + (l.length + 1) := by omega
    simp [with_ids, ih (i + 1) s, harith]

lemma inv_add_sentence (bs : ℕ) (st : GUSState) (s : String) (h : GUSInv st) :
    GUSInv (add_sentence bs st s) := by
  obtain ⟨hnd, hmap, hbatch⟩ := h
  unfold add_sentence
  by_cases hs : s ∈ st.seen
  · simp only [if_pos hs]
    exact ⟨hnd, hmap, hbatch⟩
  · simp only [if_neg hs]
    by_cases hflush : (st.batch ++ [s]).length = bs
    · simp only [if_pos hflush]
      refine ⟨by simp [List.nodup_append, hnd, hs], ?_, ?_⟩
      · show st.mapping ++ [(s, st.seen.length)] = with_ids 0 (st.seen ++ [s])
        rw [hmap, with_ids_append]
        simp
      · show (st.batches ++ [st.batch ++ [s]]).flatten ++ [] = st.seen ++ [s]
        simp only [List.flatten_append, List.flatten_cons, List.flatten_nil,
          List.append_nil]
        rw [← List.append_assoc, hbatch]
    · simp only [if_neg hflush]
      refine ⟨by simp [List.nodup_append, hnd, hs], ?_, ?_⟩
      · show st.mapping ++ [(s, st.seen.length)] = with_ids 0 (st.seen ++ [s])
        rw [hmap, with_ids_append]
        simp
      · show st.batches.flatten ++ (st.batch ++ [s]) = st.seen ++ [s]
        rw [← List.append_assoc, hbatch]

lemma inv_foldl (bs : ℕ) : ∀ (ws : List String) (st : GUSState), GUSInv st →
    GUSInv (ws.foldl (add_sentence bs) st) := by
  intro ws
  induction ws with
  | nil => intro st h; exact h
  | cons s ws ih => intro st h; exact ih _ (inv_add_sentence bs st s h)

lemma mem_insert_if_new (acc : List String) (s t : String) :
    t ∈ insert_if_new acc s ↔ t ∈ acc ∨ t = s := by
  unfold insert_if_new
  by_cases h : s ∈ acc
  · simp only [if_pos h]
    exact ⟨Or.inl, fun h2 => h2.elim id (fun ht => ht ▸ h)⟩
  · simp [h]

lemma mem_foldl_insert : ∀ (l acc : List String) (t : String),
    t ∈ l.foldl insert_if_new acc ↔ t ∈ acc ∨ t ∈ l := by
  intro l
  induction l with
  | nil => simp
  | cons s l ih =>
    intro acc t
    rw [List.foldl_cons, ih, mem_insert_if_new]
    simp [or_assoc]

lemma mem_first_occurrences (l : List String) (t : String) :
    t ∈ first_occurrences l ↔ t ∈ l := by
  simp [first_occurrences, mem_foldl_insert]

lemma nodup_insert_if_new (acc : List String) (s : String) (h : acc.Nodup) :
    (insert_if_new acc s).Nodup := by
  unfold insert_if_new
  by_cases hs : s ∈ acc
  · simpa [hs]
  · simp [hs, List.nodup_append, h]

lemma nodup_foldl_insert : ∀ (l acc : List String), acc.Nodup →
    (l.foldl insert_if_new acc).Nodup := by
  intro l
  induction l with
  | nil => intro acc h; exact h
  | cons s l ih => intro acc h; exact ih _ (nodup_insert_if_new acc s h)

lemma nodup_first_occurrences (l : List String) : (first_occurrences l).Nodup :=
  nodup_foldl_insert l [] List.nodup_nil

lemma find_with_ids : ∀ (l : List String) (i : ℕ) (s : String), s ∈ l →
    (with_ids i l).find? (fun p => p.1 == s) = some (s, i + idx_of_str s l) := by
  intro l
  induction l with
  | nil => intro i s h; simp at h
  | cons t l ih =>
    intro i s hs
    by_cases hts : t = s
    · subst hts
      show ((t, i) :: with_ids (i + 1) l).find? (fun p => p.1 == t) = _
      rw [List.find?_cons_of_pos _ (by simp)]
      simp [idx_of_str]
    · show ((t, i) :: with_ids (i + 1) l).find? (fun p => p.1 == s) = _
      rw [List.find?_cons_of_neg _ (by simp [hts])]
      have hsl : s ∈ l := by
        rcases List.mem_cons.mp hs with h | h
        · exact absurd h.symm hts
        · exact h
      rw [ih (i + 1) s hsl]
      simp [idx_of_str, hts]
      omega

lemma dict_get_with_ids (l : List String) (s : String) (h : s ∈ l) :
    dict_get (with_ids 0 l) s = some (idx_of_str s l) := by
  unfold dict_get
  rw [find_with_ids l 0 s h]
  simp

lemma mem_row_sentences : ∀ (rows : List QuoraRow) (r : QuoraRow), r ∈ rows →
    r.s1 ∈ row_sentences rows ∧ r.s2 ∈ row_sentences rows := by
  intro rows
  induction rows with
  | nil => intro r h; simp at h
  | cons q rows ih =>
    intro r h
    have hexp : row_sentences (q :: rows) = q.s1 :: q.s2 :: row_sentences rows := rfl
    rcases List.mem_cons.mp h with h | h
    · subst h; rw [hexp]; simp
    · obtain ⟨h1, h2⟩ := ih r h
      rw [hexp]; simp [h1, h2]

/-- The property claimed of `get_unique_sentences` and
`extract_unique_sentences`: the concatenation of the yielded batches lists
each distinct sentence of the dataset exactly once in order of first
appearance, the mapping pairs each such sentence with its index in that
concatenation, and `extract_unique_sentences` returns per row the ids of
its two sentences together with its 0/1 duplicate label. -/
def gus_spec (rows : List QuoraRow) (bs : ℕ) : Prop :=
  ((get_unique_sentences rows bs).1).flatten =
      first_occurrences (row_sentences rows) ∧
  ((get_unique_sentences rows bs).1).flatten.Nodup ∧
  (∀ s, s ∈ ((get_unique_sentences rows bs).1).flatten ↔
    s ∈ row_sentences rows) ∧
  (get_unique_sentences rows bs).2 =
    with_ids 0 ((get_unique_sentences rows bs).1).flatten ∧
  extract_unique_sentences rows (get_unique_sentences rows bs).2 =
    (rows.map (fun r =>
        some (idx_of_str r.s1 ((get_unique_sentences rows bs).1).flatten)),
      rows.map (fun r =>
        some (idx_of_str r.s2 ((get_unique_sentences rows bs).1).flatten)),
      rows.map (fun r => if r.is_duplicate then 1 else 0))

/-- Claim C8: for every dataset and positive batch size, exhausting
`get_unique_sentences` yields batches whose concatenation lists each
distinct sentence of the question pairs exactly once in first-appearance
order, assigns consecutive ids `0, 1, 2, ...` equal to each sentence's
index in that concatenation, and `extract_unique_sentences` then returns,
per row, the ids of exactly that row's two sentences and its 0/1 label. -/
theorem claim_c8_unique_sentences (rows : List QuoraRow) (bs : ℕ)
    (hbs : 0 < bs) : gus_spec rows bs := by
  have hinv : GUSInv (gus_final_state rows bs) := by
    unfold gus_final_state
    rw [rows_foldl_eq]
    exact inv_foldl bs (row_sentences rows) _ ⟨List.nodup_nil, rfl, rfl⟩
  have hseen : (gus_final_state rows bs).seen =
      first_occurrences (row_sentences rows) := by
    unfold gus_final_state first_occurrences
    rw [rows_foldl_eq, seen_foldl]
  have hflat : ((get_unique_sentences rows bs).1).flatten =
      (gus_final_state rows bs).seen := by
    show ((gus_final_state rows bs).batches ++
      if (gus_final_state rows bs).batch.isEmpty then []
      else [(gus_final_state rows bs).batch]).flatten = _
    by_cases h : (gus_final_state rows bs).batch.isEmpty
    · rw [if_pos h, List.append_nil, ← hinv.2.2, List.isEmpty_iff.mp h,
        List.append_nil]
    · rw [if_neg h, List.flatten_append, List.flatten_cons, List.flatten_nil,
        List.append_nil, hinv.2.2]
  have hfo : ((get_unique_sentences rows bs).1).flatten =
      first_occurrences (row_sentences rows) := hflat.trans hseen
  refine ⟨hfo, ?_, ?_, ?_, ?_⟩
  · rw [hfo]; exact nodup_first_occurrences _
  · intro s; rw [hfo, mem_first_occurrences]
  · show (gus_final_state rows bs).mapping = _
    rw [hinv.2.1, hflat]
  · show ((rows.map fun r => dict_get (get_unique_sentences rows bs).2 r.s1),
      (rows.map fun r => dict_get (get_unique_sentences rows bs).2 r.s2),
      rows.map (fun r => if r.is_duplicate then 1 else 0)) = _
    have hmap : (get_unique_sentences rows bs).2 =
        with_ids 0 ((get_unique_sentences rows bs).1).flatten := by
      show (gus_final_state rows bs).mapping = _
      rw [hinv.2.1, hflat]
    simp only [Prod.mk.injEq]
    refine ⟨?_, ?_, trivial⟩
    · refine List.map_congr_left (fun r hr => ?_)
      rw [hmap]
      exact dict_get_with_ids _ _ (by
        rw [hflat, hseen, mem_first_occurrences]
        exact (mem_row_sentences rows r hr).1)
    · refine List.map_congr_left (fun r hr => ?_)
      rw [hmap]
      exact dict_get_with_ids _ _ (by
        rw [hflat, hseen, mem_first_occurrences]
        exact (mem_row_sentences rows r hr).2)

theorem claim_c8_unique_sentences_witness :
    0 < 2 ∧ gus_spec
      [{ s1 := "a", s2 := "b", is_duplicate := true },
       { s1 := "a", s2 := "c", is_duplicate := false }] 2 :=
  ⟨by decide, claim_c8_unique_sentences _ 2 (by decide)⟩

/-- Status of one spawned `embed_text` coroutine: not yet started, inside
the `async with sem` block (an embeddings-API call in flight), or finished. -/
inductive TaskStatus where
  | pending
  | running
  | done
deriving DecidableEq

/-- State of the fan-out/fan-in pattern of `benchmark_openai` /
`benchmark_cohere_roc`: per-coroutine status, the number of available
semaphore permits, and whether the metric computation after
`await asyncio.gather(*coros)` has started. -/
structure GatherState (n : ℕ) where
  status : Fin n → TaskStatus
  avail : ℕ
  metricsStarted : Bool

/-- Initial state: `sem = asyncio.Semaphore(limit)`, all coroutines
spawned but not started, metrics not yet computed. -/
def initGather (n limit : ℕ) : GatherState n :=
  { status := fun _ => TaskStatus.pending, avail := limit, metricsStarted := false }

/-- Interleaving semantics of the benchmark coroutines: a coroutine enters
its `async with sem` block only when a permit is available (taking one),
leaving the block returns the permit, and the metric computation after
`asyncio.gather` can start only once every coroutine is done. -/
inductive GatherStep (n : ℕ) : GatherState n → GatherState n → Prop where
  | acquire (s : GatherState n) (i : Fin n) :
      s.status i = TaskStatus.pending → 0 < s.avail →
      GatherStep n s
        { status := Function.update s.status i TaskStatus.running,
          avail := s.avail - 1, metricsStarted := s.metricsStarted }
  | release (s : GatherState n) (i : Fin n) :
      s.status i = TaskStatus.running →
      GatherStep n s
        { status := Function.update s.status i TaskStatus.done,
          avail := s.avail + 1, metricsStarted := s.metricsStarted }
  | gatherDone (s : GatherState n) :
      (∀ i, s.status i = TaskStatus.done) →
      GatherStep n s
        { status := s.status, avail := s.avail, metricsStarted := true }

/-- States reachable from the initial state with `limit` permits. -/
def GatherReachable (n limit : ℕ) (s : GatherState n) : Prop :=
  Relation.ReflTransGen (GatherStep n) (initGather n limit) s

/-- Number of embeddings-API calls currently in flight: the coroutines
inside their `async with sem` block. -/
def inFlight {n : ℕ} (f : Fin n → TaskStatus) : ℕ :=
  (Finset.univ.filter (fun i => f i = TaskStatus.running)).card

/-- Semaphore limit of `benchmark_openai`: `sem = asyncio.Semaphore(20)`. -/
def openai_sem_limit : ℕ := 20

/-- Semaphore limit of `benchmark_cohere_roc`: `sem = asyncio.Semaphore(64)`. -/
def cohere_sem_limit : ℕ := 64

/-- `asyncio.gather(*coros)` returns the coroutine results in the order the
coroutines were passed, i.e. the order the batches were produced by
`get_unique_sentences` (not completion order). -/
def asyncio_gather (f : List String → List Embedding)
    (batches : List (List String)) : List (List Embedding) :=
  batches.map f

/-- `flattened_res = [item for sublist in res for item in sublist]`. -/
def flattened_res (res : List (List Embedding)) : List Embedding :=
  res.flatten

/-- The safety property of the fan-out/fan-in pattern: never more calls in
flight than the semaphore limit, and metrics only start once every
coroutine is done. -/
def gather_safe (n limit : ℕ) (s : GatherState n) : Prop :=
  inFlight s.status ≤ limit ∧
    (s.metricsStarted = true → ∀ i, s.status i = TaskStatus.done)

lemma inFlight_update_run {n : ℕ} (f : Fin n → TaskStatus) (i : Fin n)
    (h : f i = TaskStatus.pending) :
    inFlight (Function.update f i TaskStatus.running) = inFlight f + 1 := by
  unfold inFlight
  have hset : (Finset.univ.filter
      (fun j => Function.update f i TaskStatus.running j = TaskStatus.running)) =
      insert i (Finset.univ.filter (fun j => f j = TaskStatus.running)) := by
    ext j
    by_cases hj : j = i
    · subst hj; simp [Function.update_same]
    · simp [Function.update_noteq hj, hj]
  rw [hset, Finset.card_insert_of_not_mem (by simp [h])]

lemma inFlight_update_done {n : ℕ} (f : Fin n → TaskStatus) (i : Fin n)
    (h : f i = TaskStatus.running) :
    inFlight (Function.update f i TaskStatus.done) + 1 = inFlight f := by
  unfold inFlight
  have hset : (Finset.univ.filter
      (fun j => Function.update f i TaskStatus.done j = TaskStatus.running)) =
      (Finset.univ.filter (fun j => f j = TaskStatus.running)).erase i := by
    ext j
    by_cases hj : j = i
    · subst hj; simp [Function.update_same]
    · simp [Function.update_noteq hj, hj]
  rw [hset, Finset.card_erase_add_one (by simp [h])]

lemma gather_inv_step {n limit : ℕ} {s s2 : GatherState n}
    (hstep : GatherStep n s s2)
    (hinv : inFlight s.status + s.avail = limit ∧
      (s.metricsStarted = true → ∀ i, s.status i = TaskStatus.done)) :
    inFlight s2.status + s2.avail = limit ∧
      (s2.metricsStarted = true → ∀ i, s2.status i = TaskStatus.done) := by
  obtain ⟨hcount, hdone⟩ := hinv
  cases hstep with
  | acquire i hi hav =>
    refine ⟨?_, ?_⟩
    · show inFlight (Function.update s.status i TaskStatus.running) +
        (s.avail - 1) = limit
      rw [inFlight_update_run s.status i hi]
      omega
    · intro hm
      have := hdone hm i
      rw [hi] at this
      cases this
  | release i hi =>
    refine ⟨?_, ?_⟩
    · show inFlight (Function.update s.status i TaskStatus.done) +
        (s.avail + 1) = limit
      have := inFlight_update_done s.status i hi
      omega
    · intro hm
      have := hdone hm i
      rw [hi] at this
      cases this
  | gatherDone hall =>
    exact ⟨hcount, fun _ => hall⟩

lemma gather_inv_reachable {n limit : ℕ} {s : GatherState n}
    (h : GatherReachable n limit s) :
    inFlight s.status + s.avail = limit ∧
      (s.metricsStarted = true → ∀ i, s.status i = TaskStatus.done) := by
  induction h with
  | refl =>
    refine ⟨?_, ?_⟩
    · show inFlight (fun _ => TaskStatus.pending) + limit = limit
      have hz : inFlight (fun _ : Fin n => TaskStatus.pending) = 0 := by
        unfold inFlight
        simp
      omega
    · intro hm; cases hm
  | tail hr hstep ih => exact gather_inv_step hstep ih

/-- Claim C7: in `benchmark_openai` and `benchmark_cohere_roc`, the number
of embedding-API calls in flight never exceeds the semaphore limit (20 for
OpenAI, 64 for Cohere) in any reachable interleaving; the metric
computation starts only after every spawned coroutine has completed; and
`asyncio.gather` returns the per-batch results in coroutine submission
order, so the flattened result concatenates them in the order the batches
were produced. -/
theorem claim_c7_bounded_gather :
    (∀ (n limit : ℕ) (s : GatherState n), GatherReachable n limit s →
      gather_safe n limit s) ∧
    openai_sem_limit = 20 ∧ cohere_sem_limit = 64 ∧
    ∀ (f : List String → List Embedding) (batches : List (List String)),
      asyncio_gather f batches = batches.map f ∧
      flattened_res (asyncio_gather f batches) = (batches.map f).flatten := by
  refine ⟨?_, rfl, rfl, fun f batches => ⟨rfl, rfl⟩⟩
  intro n limit s hs
  obtain ⟨h1, h2⟩ := gather_inv_reachable hs
  exact ⟨by omega, h2⟩

theorem claim_c7_bounded_gather_witness :
    GatherReachable 1 20 (initGather 1 20) ∧ gather_safe 1 20 (initGather 1 20) :=
  ⟨Relation.ReflTransGen.refl,
    claim_c7_bounded_gather.1 1 20 (initGather 1 20) Relation.ReflTransGen.refl⟩

/-- The MTEB models benchmarked by `benchmark_mteb_model.map(MODELS, ...)`. -/
def MODELS : List String :=
  ["BAAI/bge-base-en-v1.5", "llmrails/ember-v1", "thenlper/gte-large",
   "infgrad/stella-base-en-v2", "sentence-transformers/gtr-t5-large"]

/-- An sklearn metric over binary labels and binarized predictions
(`accuracy_score`, `precision_score`, `recall_score` are library code and
stay abstract). -/
abbrev BinMetric := List ℕ → List ℕ → ℝ

/-- A metric over binary labels and raw cosine-similarity predictions. -/
abbrev EvalMetric := List ℕ → List ℚ → ℝ

/-- Modelled from the spec: `threshold_decorator` comes from the repository
module `evals`, which is not under `src/`. Per the spec, the thresholded
entries of the benchmark result are "accuracy/precision/recall at a
threshold", so the decorator binarizes the raw predictions at the threshold
before applying the wrapped metric. -/
def threshold_decorator (t : ℚ) (f : BinMetric) : EvalMetric :=
  fun labels preds => f labels (preds.map (fun p => if t ≤ p then 1 else 0))

/-- `THRESHOLDS = [0.3, 0.5, 0.7]`, each with the string Python renders for
it inside the f-string key. -/
def THRESHOLDS : List (ℚ × String) :=
  [(3 / 10, "0.3"), (1 / 2, "0.5"), (7 / 10, "0.7")]

/-- The `EVALS` dict of `finetune-quora-embeddings/benchmark.py`:
`itertools.product(THRESHOLDS, METRICS.keys())` (thresholds outer, metrics
inner) keyed by the f-string, then the plain `AUC` entry. -/
def EVALS (metrics : List (String × BinMetric)) (auc : EvalMetric) :
    List (String × EvalMetric) :=
  (THRESHOLDS.map (fun t => metrics.map
      (fun m => (m.1 ++ " (" ++ t.2 ++ ")", threshold_decorator t.1 m.2)))).flatten
    ++ [("AUC", auc)]

/-- Last step of each benchmark function:
`return {name: f(labels, predictions) for name, f in EVALS.items()}`. -/
def benchmark_scores (evals : List (String × EvalMetric)) (labels : List ℕ)
    (predictions : List ℚ) : List (String × ℝ) :=
  evals.map (fun e => (e.1, e.2 labels predictions))

/-- The `res` dict built by `main` and dumped to `results.json`: OpenAI
first, then Cohere, then the MTEB models in order, each mapped to its
benchmark's metric scores. -/
def main_results (openai_scores cohere_scores : List (String × ℝ))
    (mteb_scores : String → List (String × ℝ)) :
    List (String × List (String × ℝ)) :=
  ("text-embeddings-ada-v2", openai_scores) ::
    ("embed-multilingual-v3.0", cohere_scores) ::
    MODELS.map (fun m => (m, mteb_scores m))

/-- Claim C6: every benchmark function returns a mapping whose keys are
exactly the nine thresholded metrics together with `AUC`, each value the
corresponding metric applied to the test labels and cosine-similarity
predictions; `main` serializes to `results.json` the mapping from each
model name to its metric scores. -/
theorem claim_c6_benchmark_metrics :
    ∀ (acc prec rec : BinMetric) (auc : EvalMetric)
      (labels : List ℕ) (preds : List ℚ)
      (openai_scores cohere_scores : List (String × ℝ))
      (mteb_scores : String → List (String × ℝ)),
      (benchmark_scores
          (EVALS [("accuracy", acc), ("precision", prec), ("recall", rec)] auc)
          labels preds).map Prod.fst =
        ["accuracy (0.3)", "precision (0.3)", "recall (0.3)",
         "accuracy (0.5)", "precision (0.5)", "recall (0.5)",
         "accuracy (0.7)", "precision (0.7)", "recall (0.7)", "AUC"] ∧
      benchmark_scores
          (EVALS [("accuracy", acc), ("precision", prec), ("recall", rec)] auc)
          labels preds =
        [("accuracy (0.3)", threshold_decorator (3 / 10) acc labels preds),
         ("precision (0.3)", threshold_decorator (3 / 10) prec labels preds),
         ("recall (0.3)", threshold_decorator (3 / 10) rec labels preds),
         ("accuracy (0.5)", threshold_decorator (1 / 2) acc labels preds),
         ("precision (0.5)", threshold_decorator (1 / 2) prec labels preds),
         ("recall (0.5)", threshold_decorator (1 / 2) rec labels preds),
         ("accuracy (0.7)", threshold_decorator (7 / 10) acc labels preds),
         ("precision (0.7)", threshold_decorator (7 / 10) prec labels preds),
         ("recall (0.7)", threshold_decorator (7 / 10) rec labels preds),
         ("AUC", auc labels preds)] ∧
      (main_results openai_scores cohere_scores mteb_scores).map Prod.fst =
        ["text-embeddings-ada-v2", "embed-multilingual-v3.0"] ++ MODELS ∧
      main_results openai_scores cohere_scores mteb_scores =
        ("text-embeddings-ada-v2", openai_scores) ::
          ("embed-multilingual-v3.0", cohere_scores) ::
          MODELS.map (fun m => (m, mteb_scores m)) := by
  intro acc prec rec auc labels preds openai_scores cohere_scores mteb_scores
  exact ⟨rfl, rfl, rfl, rfl⟩

/-- Inner product of two vectors (trailing entries of the longer vector are
ignored; tensors of equal embedding size are always used). -/
def dotQ : List ℚ → List ℚ → ℚ
  | [], _ => 0
  | _, [] => 0
  | x :: v, y :: w => x * y + dotQ v w

/-- Scale a row by a scalar. -/
def scaleQ (c : ℚ) (row : List ℚ) : List ℚ := row.map (fun x => c * x)

/-- Pointwise vector addition (padding with the longer summand). -/
def addQ : List ℚ → List ℚ → List ℚ
  | [], w => w
  | v, [] => v
  | x :: v, y :: w => (x + y) :: addQ v w

/-- `e @ matrix`: vector-matrix product with a row-major matrix, as the sum
of the scalar multiples of the matrix rows. -/
def vecMatMul : List ℚ → List (List ℚ) → List ℚ
  | [], _ => []
  | _, [] => []
  | x :: v, row :: m => addQ (scaleQ x row) (vecMatMul v m)

/-- `F.relu(self.matrix)`: elementwise `max(x, 0)` over the parameter
matrix. -/
def matRelu (m : List (List ℚ)) : List (List ℚ) :=
  m.map (fun row => row.map (fun x => max x 0))

/-- `F.dropout(x, p)` at train time, given the sampled keep-mask: kept
coordinates are scaled by `1 / (1 - p)`, dropped ones zeroed. For `p = 0`
no coordinate is ever dropped, so the all-keep mask is the only sample. -/
def dropout_go (p : ℚ) (mask : ℕ → Bool) : ℕ → List ℚ → List ℚ
  | _, [] => []
  | i, x :: v =>
    (if mask i then x / (1 - p) else 0) :: dropout_go p mask (i + 1) v

/-- `F.dropout(x, p)` on a vector, with the sampled keep-mask. -/
def dropout (p : ℚ) (mask : ℕ → Bool) (v : List ℚ) : List ℚ :=
  dropout_go p mask 0 v

/-- The all-keep dropout mask: the almost-sure sample when `p = 0`. -/
def keep_all : ℕ → Bool := fun _ => true

/-- `F.cosine_similarity`: inner product of the two vectors divided by the
product of their magnitudes. -/
noncomputable def cosine_similarity (v w : List ℚ) : ℝ :=
  ((dotQ v w : ℚ) : ℝ) /
    (Real.sqrt ((dotQ v v : ℚ) : ℝ) * Real.sqrt ((dotQ w w : ℚ) : ℝ))

namespace SimilarityModel

/-- `SimilarityModel.forward` from `affine-finetune-embeddings/model.py`,
on one pair of embedding rows: dropout both inputs, project both through
`self.matrix` (relu-constrained when `use_relu`), and return their cosine
similarity. The model's hyperparameters `dropout_fraction` and `use_relu`
and its parameter `self.matrix` are explicit arguments, the sampled dropout
masks `m1`, `m2` likewise. -/
noncomputable def forward (p : ℚ) (m1 m2 : ℕ → Bool) (use_relu : Bool)
    (matrix : List (List ℚ)) (embedding_1 embedding_2 : List ℚ) : ℝ :=
  let e1 := dropout p m1 embedding_1
  let e2 := dropout p m2 embedding_2
  let matrix2 := if use_relu then matRelu matrix else matrix
  let modified_embedding_1 := vecMatMul e1 matrix2
  let modified_embedding_2 := vecMatMul e2 matrix2
  cosine_similarity modified_embedding_1 modified_embedding_2

/-- `forward` over a batch: the per-row cosine similarities (the tensor
before `unsqueeze`). -/
noncomputable def forward_batch (p : ℚ) (m1 m2 : ℕ → Bool) (use_relu : Bool)
    (matrix : List (List ℚ)) (e1s e2s : List (List ℚ)) : List ℝ :=
  (e1s.zip e2s).map (fun pr => forward p m1 m2 use_relu matrix pr.1 pr.2)

/-- What `forward` returns for a batch: `similarity.unsqueeze(-1)`, the
per-row similarities with a trailing dimension appended. -/
noncomputable def forward_unsqueezed (p : ℚ) (m1 m2 : ℕ → Bool)
    (use_relu : Bool) (matrix : List (List ℚ)) (e1s e2s : List (List ℚ)) :
    List (List ℝ) :=
  (forward_batch p m1 m2 use_relu matrix e1s e2s).map (fun s => [s])

end SimilarityModel

/-- `torch.sigmoid`. -/
noncomputable def sigmoid (x : ℝ) : ℝ := 1 / (1 + Real.exp (-x))

/-- `F.binary_cross_entropy_with_logits(input, target, pos_weight, reduction="mean")`:
per element `-(pos_weight * y * log σ(x) + (1 - y) * log (1 - σ(x)))`,
averaged over the elements. -/
noncomputable def binary_cross_entropy_with_logits_mean (pos_w : ℝ)
    (input target : List ℝ) : ℝ :=
  ((input.zip target).map (fun pr =>
      -(pos_w * pr.2 * Real.log (sigmoid pr.1) +
        (1 - pr.2) * Real.log (1 - sigmoid pr.1)))).sum /
    (input.length : ℝ)

/-- `pos_weight = torch.tensor([0.89 / 0.11])`. -/
noncomputable def pos_weight : ℝ := 0.89 / 0.11

/-- A training/validation/test batch: the two embedding tensors the step
functions unpack, plus whatever duplicate/non-duplicate labels the dataset
carried along (never read by the step functions). -/
structure TrainBatch where
  e1s : List (List ℚ)
  e2s : List (List ℚ)
  labels : List Bool

namespace SimilarityModel

/-- `SimilarityModel.training_step`: similarity via `forward`, target
`torch.ones(similarity.shape)`, loss `binary_cross_entropy_with_logits`
with `pos_weight = 0.89 / 0.11` and mean reduction. -/
noncomputable def training_step (p : ℚ) (m1 m2 : ℕ → Bool) (use_relu : Bool)
    (matrix : List (List ℚ)) (batch : TrainBatch) : ℝ :=
  let similarity := forward_batch p m1 m2 use_relu matrix batch.e1s batch.e2s
  let target_similarity := List.replicate similarity.length (1 : ℝ)
  binary_cross_entropy_with_logits_mean pos_weight similarity target_similarity

/-- Loss of `SimilarityModel.validation_step` (the source duplicates the
`training_step` loss computation verbatim, then logs further metrics). -/
noncomputable def validation_step (p : ℚ) (m1 m2 : ℕ → Bool) (use_relu : Bool)
    (matrix : List (List ℚ)) (batch : TrainBatch) : ℝ :=
  let similarity := forward_batch p m1 m2 use_relu matrix batch.e1s batch.e2s
  let target_similarity := List.replicate similarity.length (1 : ℝ)
  binary_cross_entropy_with_logits_mean pos_weight similarity target_similarity

/-- Loss of `SimilarityModel.test_step` (again the same computation). -/
noncomputable def test_step (p : ℚ) (m1 m2 : ℕ → Bool) (use_relu : Bool)
    (matrix : List (List ℚ)) (batch : TrainBatch) : ℝ :=
  let similarity := forward_batch p m1 m2 use_relu matrix batch.e1s batch.e2s
  let target_similarity := List.replicate similarity.length (1 : ℝ)
  binary_cross_entropy_with_logits_mean pos_weight similarity target_similarity

end SimilarityModel

lemma dropout_go_zero (mask : ℕ → Bool) (hmask : ∀ i, mask i = true) :
    ∀ (v : List ℚ) (i : ℕ), dropout_go 0 mask i v = v := by
  intro v
  induction v with
  | nil => intro i; rfl
  | cons x v ih =>
    intro i
    simp [dropout_go, hmask i, ih (i + 1)]

lemma dropout_zero (v : List ℚ) : dropout 0 keep_all v = v :=
  dropout_go_zero keep_all (fun _ => rfl) v 0

lemma forward_zero_dropout (use_relu : Bool) (matrix : List (List ℚ))
    (e1 e2 : List ℚ) :
    SimilarityModel.forward 0 keep_all keep_all use_relu matrix e1 e2 =
      cosine_similarity
        (vecMatMul e1 (if use_relu then matRelu matrix else matrix))
        (vecMatMul e2 (if use_relu then matRelu matrix else matrix)) := by
  simp only [SimilarityModel.forward, dropout_zero]

lemma dotQ_self_nonneg : ∀ v : List ℚ, 0 ≤ dotQ v v := by
  intro v
  induction v with
  | nil => simp [dotQ]
  | cons x v ih =>
    show 0 ≤ x * x + dotQ v v
    nlinarith [mul_self_nonneg x]

lemma dotQ_self_pos : ∀ v : List ℚ, (∃ x ∈ v, x ≠ 0) → 0 < dotQ v v := by
  intro v
  induction v with
  | nil => rintro ⟨x, hx, hne⟩; simp at hx
  | cons y v ih =>
    rintro ⟨x, hx, hne⟩
    show 0 < y * y + dotQ v v
    rcases List.mem_cons.mp hx with heq | hmem
    · have h1 : 0 < x * x := mul_self_pos.mpr hne
      subst heq
      nlinarith [dotQ_self_nonneg v]
    · have h2 := ih ⟨x, hmem, hne⟩
      nlinarith [mul_self_nonneg y]

lemma cosine_similarity_self (v : List ℚ) (h : 0 < dotQ v v) :
    cosine_similarity v v = 1 := by
  unfold cosine_similarity
  have hr : (0 : ℝ) < ((dotQ v v : ℚ) : ℝ) := by exact_mod_cast h
  rw [Real.mul_self_sqrt hr.le, div_self hr.ne.symm]

/-- Claim C1: `forward(e1, e2)` is the cosine similarity (with a trailing
dimension appended in the batched form) of `d1 @ M` and `d2 @ M`, where
`d1`, `d2` are the dropout-regularized inputs and `M` is
`relu(self.matrix)` when `use_relu` and `self.matrix` otherwise; for
`dropout_fraction = 0` it is exactly the cosine similarity of `e1 @ M` and
`e2 @ M`. -/
theorem claim_c1_forward_is_cosine :
    ∀ (p : ℚ) (m1 m2 : ℕ → Bool) (use_relu : Bool) (matrix : List (List ℚ))
      (e1 e2 : List ℚ) (e1s e2s : List (List ℚ)),
      SimilarityModel.forward p m1 m2 use_relu matrix e1 e2 =
        cosine_similarity
          (vecMatMul (dropout p m1 e1)
            (if use_relu then matRelu matrix else matrix))
          (vecMatMul (dropout p m2 e2)
            (if use_relu then matRelu matrix else matrix)) ∧
      SimilarityModel.forward 0 keep_all keep_all use_relu matrix e1 e2 =
        cosine_similarity
          (vecMatMul e1 (if use_relu then matRelu matrix else matrix))
          (vecMatMul e2 (if use_relu then matRelu matrix else matrix)) ∧
      SimilarityModel.forward_unsqueezed p m1 m2 use_relu matrix e1s e2s =
        (SimilarityModel.forward_batch p m1 m2 use_relu matrix e1s e2s).map
          (fun s => [s]) := by
  intro p m1 m2 use_relu matrix e1 e2 e1s e2s
  exact ⟨rfl, forward_zero_dropout use_relu matrix e1 e2, rfl⟩

/-- Claim C3: with `dropout_fraction = 0`, two identical embeddings whose
projected vector is nonzero have similarity exactly 1. -/
theorem claim_c3_self_similarity_one (use_relu : Bool)
    (matrix : List (List ℚ)) (e : List ℚ)
    (h : ∃ x ∈ vecMatMul e (if use_relu then matRelu matrix else matrix),
      x ≠ 0) :
    SimilarityModel.forward 0 keep_all keep_all use_relu matrix e e = 1 := by
  rw [forward_zero_dropout]
  exact cosine_similarity_self _ (dotQ_self_pos _ h)

theorem claim_c3_self_similarity_one_witness :
    (∃ x ∈ vecMatMul [(1 : ℚ)]
        (if false then matRelu [[1]] else [[1]]), x ≠ 0) ∧
    SimilarityModel.forward 0 keep_all keep_all false [[1]] [1] [1] = 1 :=
  ⟨by norm_num [vecMatMul, scaleQ, addQ],
    claim_c3_self_similarity_one false [[1]] [1]
      (by norm_num [vecMatMul, scaleQ, addQ])⟩

/-- Claim C2: the training, validation and test steps all compute their
loss as binary cross-entropy with logits of `forward(e1, e2)` against an
all-ones target of the same shape, with positive-class weight `0.89 / 0.11`
and mean reduction, independently of any duplicate/non-duplicate labels
carried by the batch. -/
theorem claim_c2_all_positive_bce :
    ∀ (p : ℚ) (m1 m2 : ℕ → Bool) (use_relu : Bool) (matrix : List (List ℚ))
      (batch : TrainBatch) (labels2 : List Bool),
      SimilarityModel.training_step p m1 m2 use_relu matrix batch =
        binary_cross_entropy_with_logits_mean pos_weight
          (SimilarityModel.forward_batch p m1 m2 use_relu matrix
            batch.e1s batch.e2s)
          (List.replicate
            (SimilarityModel.forward_batch p m1 m2 use_relu matrix
              batch.e1s batch.e2s).length 1) ∧
      pos_weight = 0.89 / 0.11 ∧
      SimilarityModel.validation_step p m1 m2 use_relu matrix batch =
        SimilarityModel.training_step p m1 m2 use_relu matrix batch ∧
      SimilarityModel.test_step p m1 m2 use_relu matrix batch =
        SimilarityModel.training_step p m1 m2 use_relu matrix batch ∧
      SimilarityModel.training_step p m1 m2 use_relu matrix
          { e1s := batch.e1s, e2s := batch.e2s, labels := labels2 } =
        SimilarityModel.training_step p m1 m2 use_relu matrix batch := by
  intro p m1 m2 use_relu matrix batch labels2
  exact ⟨rfl, rfl, rfl, rfl, rfl⟩
